import Mathlib

/-!
Shallow embedding of the serialisation layer of danpls/nix,
src/src/libutil/serialise.hh.  Bytes are natural numbers below 256 and byte
streams are lists of bytes.  The header declares the primitive codec
functions and the buffering classes; the bodies that live in the missing
serialise.cc are modelled from the spec, while StringSource, StringSink and
FdSink's destructor are embedded from the inline code of the header.
-/

namespace Serialise

/-- Error kinds of the repository: `Error` is the base error class
(types.hh); `SerialisationError` is declared by
`MakeError(SerialisationError, Error)` in serialise.hh; transport failures
of an underlying read/write primitive are kept as a separate tag following
the spec's error taxonomy. -/
inductive ErrKind where
  | genericError
  | serialisationError
  | transportError
deriving DecidableEq

/-- From serialise.hh, StringSource::operator(): `s.copy((char *) data, len,
pos)` copies `min(len, s.size() - pos)` bytes of `s` starting at `pos` into
the destination; then `pos += len`; then `if (pos > s.size()) throw
Error("end of string reached")`.  The result is the bytes written into the
destination, the new `pos`, and the error thrown (if any). -/
def stringSourceFill (s : List Nat) (pos len : Nat) :
    List Nat × Nat × Option ErrKind :=
  let copied := (s.drop pos).take len
  let newPos := pos + len
  (copied, newPos, if s.length < newPos then some ErrKind.genericError else none)

/-- Little-endian byte encoding of `n` into `k` bytes, low byte first
(bytes beyond the `k`-th are dropped, as a C++ narrowing conversion does). -/
def toLE : Nat → Nat → List Nat
  | 0, _ => []
  | k + 1, n => n % 256 :: toLE k (n / 256)

/-- Value of a little-endian byte list, low byte first. -/
def fromLE : List Nat → Nat
  | [] => 0
  | b :: bs => b + 256 * fromLE bs

/-- Number of padding bytes that follow a payload of `len` bytes:
`(8 - len mod 8) mod 8`. -/
def padLen (len : Nat) : Nat := (8 - len % 8) % 8

/-- Modelled from the spec: the body of `writePadding` is in the missing
serialise.cc; it emits `(8 - len mod 8) mod 8` zero bytes. -/
def writePadding (len : Nat) : List Nat := List.replicate (padLen len) 0

/-- Modelled from the spec: the body of `writeInt` is in the missing
serialise.cc; it emits exactly 8 bytes, the 4-byte little-endian encoding of
the 32-bit unsigned value followed by 4 zero bytes.  The `unsigned int`
parameter type declared in serialise.hh reduces the argument modulo 2^32,
which `toLE 4` performs. -/
def writeInt (n : Nat) : List Nat := toLE 4 n ++ List.replicate 4 0

/-- Modelled from the spec: the body of `writeLongLong` is in the missing
serialise.cc; it emits exactly 8 bytes, the little-endian encoding of the
full 64-bit value. -/
def writeLongLong (n : Nat) : List Nat := toLE 8 n

/-- Modelled from the spec: the body of `writeString` is in the missing
serialise.cc; it emits `writeInt(len(s))`, then the raw bytes of `s`, then
`writePadding(len(s))`. -/
def writeString (s : List Nat) : List Nat :=
  writeInt s.length ++ s ++ writePadding s.length

/-- The `Source::operator()` contract on a byte stream modelled as the list
of bytes still to arrive: fill exactly `k` bytes (returning them and the
rest of the stream) or fail if that many bytes will never be available. -/
def readBytes (k : Nat) (input : List Nat) : Option (List Nat × List Nat) :=
  if k ≤ input.length then some (input.take k, input.drop k) else none

/-- Modelled from the spec: the body of `readInt` is in the missing
serialise.cc; it reads 8 bytes, takes the low 4 as the little-endian value
and ignores (does not validate) the high 4. -/
def readInt (input : List Nat) : Option (Nat × List Nat) :=
  match readBytes 8 input with
  | none => none
  | some (bs, rest) => some (fromLE (bs.take 4), rest)

/-- Modelled from the spec: the body of `readLongLong` is in the missing
serialise.cc; it reads 8 bytes and returns their little-endian value. -/
def readLongLong (input : List Nat) : Option (Nat × List Nat) :=
  match readBytes 8 input with
  | none => none
  | some (bs, rest) => some (fromLE bs, rest)

/-- Modelled from the spec: the body of `readPadding` is in the missing
serialise.cc; it reads and discards the `(8 - len mod 8) mod 8` padding
bytes that follow a `len`-byte payload. -/
def readPadding (len : Nat) (input : List Nat) : Option (List Nat) :=
  match readBytes (padLen len) input with
  | none => none
  | some (_, rest) => some rest

/-- Modelled from the spec: the body of `readString` is in the missing
serialise.cc; `n = readInt()`, read exactly `n` raw bytes, then
`readPadding(n)`; returns the `n`-byte payload. -/
def readString (input : List Nat) : Option (List Nat × List Nat) :=
  match readInt input with
  | none => none
  | some (n, r1) =>
    match readBytes n r1 with
    | none => none
    | some (s, r2) =>
      match readPadding n r2 with
      | none => none
      | some r3 => some (s, r3)

/-- Ordered insertion without duplicates, as `std::set<string>::insert`:
the set is its sorted duplicate-free list of elements, ordered by
`std::string::operator<`, the lexicographic order on byte strings (which is
the `LinearOrder` on `List Nat`). -/
def setInsert (s : List Nat) : List (List Nat) → List (List Nat)
  | [] => [s]
  | x :: xs =>
    if s < x then s :: x :: xs
    else if x < s then x :: setInsert s xs
    else x :: xs

/-- The `std::set<string>` built by inserting the strings of `l` in order. -/
def listToSet (l : List (List Nat)) : List (List Nat) :=
  l.foldl (fun acc s => setInsert s acc) []

/-- Concatenated encodings of a list of strings, one `writeString` each. -/
def writeStrings : List (List Nat) → List Nat
  | [] => []
  | s :: ss => writeString s ++ writeStrings ss

/-- Modelled from the spec: the body of `writeStringSet` is in the missing
serialise.cc; it emits `writeInt(|set|)` followed by `writeString` for each
element in the set's iteration order. -/
def writeStringSet (ss : List (List Nat)) : List Nat :=
  writeInt ss.length ++ writeStrings ss

/-- The decoding loop of `readStringSet`: read `n` strings, inserting each
into the accumulated set. -/
def readStrings : Nat → List (List Nat) → List Nat →
    Option (List (List Nat) × List Nat)
  | 0, acc, input => some (acc, input)
  | n + 1, acc, input =>
    match readString input with
    | none => none
    | some (s, rest) => readStrings n (setInsert s acc) rest

/-- Modelled from the spec: the body of `readStringSet` is in the missing
serialise.cc; `n = readInt()`, then `n` strings via `readString`, collected
into a set (duplicates collapse). -/
def readStringSet (input : List Nat) : Option (List (List Nat) × List Nat) :=
  match readInt input with
  | none => none
  | some (n, rest) => readStrings n [] rest

/-- State of a `BufferedSink`: the bytes currently buffered (the region
`[0, bufPos)` of `buffer`) and the bytes already written to the underlying
transport. -/
structure BufSinkState where
  buf : List Nat
  out : List Nat
deriving DecidableEq

/-- Modelled from the spec: the body of `BufferedSink::flush` is in the
missing serialise.cc; it writes the buffered bytes to the underlying
transport, leaving the buffer empty. -/
def bufSinkFlush (st : BufSinkState) : BufSinkState :=
  { buf := [], out := st.out ++ st.buf }

/-- Modelled from the spec: the body of `BufferedSink::operator()` is in the
missing serialise.cc; an accepted write appends to the buffer, but if it
would overflow the capacity the current buffer is flushed to the underlying
transport first, and a chunk that exceeds the whole capacity is then written
through directly. -/
def bufSinkAccept (cap : Nat) (st : BufSinkState) (data : List Nat) :
    BufSinkState :=
  if st.buf.length + data.length ≤ cap then { st with buf := st.buf ++ data }
  else
    let st2 := bufSinkFlush st
    if data.length ≤ cap then { st2 with buf := data }
    else { st2 with out := st2.out ++ data }

/-- Feed a sequence of chunks to a fresh `BufferedSink` of capacity `cap`. -/
def bufSinkRun (cap : Nat) (chunks : List (List Nat)) : BufSinkState :=
  chunks.foldl (bufSinkAccept cap) { buf := [], out := [] }

/-- Modelled from the spec: the body of `BufferedSource::operator()` is in
the missing serialise.cc; serve the request from the unread region of the
buffer, and when it is exhausted invoke the underlying `read` to refill and
continue, failing only when the underlying read signals that no more data
will ever arrive while bytes are still needed.  `buf` is the unread region;
`upstream` lists the chunks the underlying `read` will deliver, one per
call, its exhaustion being the no-more-data signal. -/
def bufSourceFill : Nat → List Nat → List (List Nat) →
    Option (List Nat × List Nat × List (List Nat))
  | 0, buf, up => some ([], buf, up)
  | _ + 1, [], [] => none
  | len + 1, [], c :: cs => bufSourceFill (len + 1) c cs
  | len + 1, b :: bs, up =>
    match bufSourceFill len bs up with
    | none => none
    | some (got, buf2, up2) => some (b :: got, buf2, up2)
termination_by len _ up => len + up.length

/-- Modelled from the spec: `FdSink`'s flush path; a transport error while
writing the buffered bytes propagates to the caller of `flush` (spec 4.1).
`tErr` is the outcome of the underlying transport write; with an empty
buffer no write is issued. -/
def fdSinkFlush (tErr : Option ErrKind) (st : BufSinkState) :
    Except ErrKind BufSinkState :=
  if st.buf.isEmpty then Except.ok st
  else
    match tErr with
    | some e => Except.error e
    | none => Except.ok (bufSinkFlush st)

/-- From serialise.hh: `~FdSink() { flush(); }` — the destructor invokes
`flush` with no handler around it, so the outcome of `flush`, an error
included, is the outcome of the destruction path. -/
def fdSinkDestroy (tErr : Option ErrKind) (st : BufSinkState) :
    Except ErrKind BufSinkState :=
  fdSinkFlush tErr st

/-! Helper lemmas about the encoding primitives. -/

theorem length_toLE (k n : Nat) : (toLE k n).length = k := by
  induction k generalizing n with
  | zero => rfl
  | succ k ih => simp [toLE, ih]

theorem fromLE_toLE (k n : Nat) (h : n < 256 ^ k) : fromLE (toLE k n) = n := by
  induction k generalizing n with
  | zero =>
    simp [toLE, fromLE]
    omega
  | succ k ih =>
    have hdiv : n / 256 < 256 ^ k := by
      rw [Nat.div_lt_iff_lt_mul (by norm_num)]
      calc n < 256 ^ (k + 1) := h
        _ = 256 ^ k * 256 := by ring
    simp [toLE, fromLE, ih (n / 256) hdiv]
    omega

theorem readBytes_exact (pre post : List Nat) :
    readBytes pre.length (pre ++ post) = some (pre, post) := by
  simp [readBytes, List.take_left, List.drop_left]

theorem readBytes_of_length (k : Nat) (pre post : List Nat)
    (h : pre.length = k) : readBytes k (pre ++ post) = some (pre, post) := by
  subst h; exact readBytes_exact pre post

theorem length_writeInt (n : Nat) : (writeInt n).length = 8 := by
  simp [writeInt, length_toLE]

theorem readInt_append (n : Nat) (rest : List Nat) (h : n < 2 ^ 32) :
    readInt (writeInt n ++ rest) = some (n, rest) := by
  have h8 : (toLE 4 n ++ List.replicate 4 0).length = 8 := by
    simp [length_toLE]
  rw [readInt, writeInt, List.append_assoc, ← List.append_assoc,
    readBytes_of_length 8 _ _ (by simp [length_toLE])]
  have htake : ((toLE 4 n ++ ([0, 0, 0, 0] : List Nat)).take 4) = toLE 4 n := by
    have := List.take_left (toLE 4 n) ([0, 0, 0, 0] : List Nat)
    rwa [length_toLE] at this
  simp [htake, fromLE_toLE 4 n (by norm_num at h ⊢; omega)]

theorem readLongLong_append (n : Nat) (rest : List Nat) (h : n < 2 ^ 64) :
    readLongLong (writeLongLong n ++ rest) = some (n, rest) := by
  rw [readLongLong, writeLongLong,
    readBytes_of_length 8 _ _ (length_toLE 8 n)]
  simp [fromLE_toLE 8 n (by norm_num at h ⊢; omega)]

theorem length_writePadding (len : Nat) :
    (writePadding len).length = padLen len := by
  simp [writePadding]

theorem readPadding_append (len : Nat) (rest : List Nat) :
    readPadding len (writePadding len ++ rest) = some rest := by
  rw [readPadding, readBytes_of_length (padLen len) _ _ (length_writePadding len)]

theorem readString_append (s : List Nat) (rest : List Nat)
    (h : s.length < 2 ^ 32) :
    readString (writeString s ++ rest) = some (s, rest) := by
  rw [readString, writeString, List.append_assoc, List.append_assoc,
    readInt_append s.length _ h]
  simp [readBytes_exact, readPadding_append]

theorem length_writeString (s : List Nat) :
    (writeString s).length = 8 + s.length + padLen s.length := by
  simp [writeString, length_writeInt, length_writePadding]
  omega

/-!  Theorems for the claims.  -/

/-- C1.  For every unsigned 32-bit value `n`, `readInt` applied to the bytes
`writeInt` emitted yields `n` again, and for every unsigned 64-bit value
`m`, `readLongLong` is the exact inverse of `writeLongLong`. -/
theorem c1_int_roundtrip (n m : Nat) (hn : n < 2 ^ 32) (hm : m < 2 ^ 64) :
    readInt (writeInt n) = some (n, []) ∧
    readLongLong (writeLongLong m) = some (m, []) := by
  constructor
  · have := readInt_append n [] hn
    simpa using this
  · have := readLongLong_append m [] hm
    simpa using this

/-- Witness for C1 at `n = 300` and `m = 2^40 + 5`. -/
theorem c1_int_roundtrip_witness :
    readInt (writeInt 300) = some (300, []) ∧
    readLongLong (writeLongLong (2 ^ 40 + 5)) = some (2 ^ 40 + 5, []) :=
  c1_int_roundtrip 300 (2 ^ 40 + 5) (by norm_num) (by norm_num)

/-- C3.  `writePadding len` emits exactly `(8 - len % 8) % 8` zero bytes —
between 0 and 7 of them, none when `len` is a multiple of 8 — so that `len`
plus the emitted count is a multiple of 8, and `readPadding len` reads and
discards exactly that many bytes. -/
theorem c3_padding (len : Nat) (rest : List Nat) :
    (writePadding len).length = (8 - len % 8) % 8 ∧
    (writePadding len).length ≤ 7 ∧
    (len % 8 = 0 → writePadding len = []) ∧
    (len + (writePadding len).length) % 8 = 0 ∧
    (∀ b ∈ writePadding len, b = 0) ∧
    readPadding len (writePadding len ++ rest) = some rest := by
  refine ⟨length_writePadding len, ?_, ?_, ?_, ?_, readPadding_append len rest⟩
  · rw [length_writePadding]; unfold padLen; omega
  · intro h; simp [writePadding, padLen, h]
  · rw [length_writePadding]; unfold padLen; omega
  · intro b hb
    simp [writePadding] at hb
    exact hb.2

/-- Witness for C3 at `len = 8` (aligned) and `len = 3` (5 pad bytes). -/
theorem c3_padding_witness :
    writePadding 8 = [] ∧
    (writePadding 3).length = 5 ∧
    readPadding 3 (writePadding 3 ++ [9]) = some [9] :=
  ⟨(c3_padding 8 []).2.2.1 (by norm_num),
   (c3_padding 3 []).1,
   (c3_padding 3 [9]).2.2.2.2.2⟩

/-- C4.  `writeInt n` emits exactly 8 bytes, the 4-byte little-endian
encoding of `n` followed by 4 zero bytes; encoding 300 yields
`2C 01 00 00 00 00 00 00` and decoding those bytes yields 300; `readInt`
takes the low 4 bytes as the value and ignores the high 4, returning the
same value for any contents of the high 4 bytes. -/
theorem c4_writeInt_format (n : Nat) (low high1 high2 : List Nat)
    (_hn : n < 2 ^ 32) (hlow : low.length = 4)
    (hh1 : high1.length = 4) (hh2 : high2.length = 4) :
    (writeInt n).length = 8 ∧
    writeInt n = toLE 4 n ++ [0, 0, 0, 0] ∧
    writeInt 300 = [0x2C, 0x01, 0, 0, 0, 0, 0, 0] ∧
    readInt (writeInt 300) = some (300, []) ∧
    (readInt (low ++ high1)).map Prod.fst = some (fromLE low) ∧
    (readInt (low ++ high2)).map Prod.fst = some (fromLE low) := by
  have hread : ∀ high : List Nat, high.length = 4 →
      (readInt (low ++ high)).map Prod.fst = some (fromLE low) := by
    intro high hh
    have hfull : low ++ high = (low ++ high) ++ [] := by simp
    rw [readInt, hfull,
      readBytes_of_length 8 (low ++ high) [] (by simp [hlow, hh])]
    have htake : (low ++ high).take 4 = low := by
      have := List.take_left low high
      rwa [hlow] at this
    simp [htake]
  refine ⟨length_writeInt n, ?_, by decide, ?_, hread high1 hh1, hread high2 hh2⟩
  · simp [writeInt, List.replicate]
  · have := readInt_append 300 [] (by norm_num)
    simpa using this

/-- Witness for C4 at `n = 300`, `low = [1, 2, 3, 4]`, two distinct
high-byte fillers. -/
theorem c4_writeInt_format_witness :
    (writeInt 300).length = 8 ∧
    writeInt 300 = toLE 4 300 ++ [0, 0, 0, 0] ∧
    writeInt 300 = [0x2C, 0x01, 0, 0, 0, 0, 0, 0] ∧
    readInt (writeInt 300) = some (300, []) ∧
    (readInt ([1, 2, 3, 4] ++ [5, 6, 7, 8])).map Prod.fst = some (fromLE [1, 2, 3, 4]) ∧
    (readInt ([1, 2, 3, 4] ++ [255, 254, 253, 252])).map Prod.fst = some (fromLE [1, 2, 3, 4]) :=
  c4_writeInt_format 300 [1, 2, 3, 4] [5, 6, 7, 8] [255, 254, 253, 252]
    (by norm_num) (by decide) (by decide) (by decide)

/-- C2 (amended).  For every byte string `s` of length below 2^32, including
the empty string, decoding the encoding of `s` yields `s` again with the
trailing bytes untouched, and the encoding — hence the bytes the decoder
consumes — is exactly `8 + len(s) + pad(len(s))` bytes long. -/
theorem c2_string_roundtrip (s rest : List Nat) (h : s.length < 2 ^ 32) :
    readString (writeString s ++ rest) = some (s, rest) ∧
    (writeString s).length = 8 + s.length + padLen s.length :=
  ⟨readString_append s rest h, length_writeString s⟩

/-- Witness for C2 at `s = "ab"` with two trailing bytes. -/
theorem c2_string_roundtrip_witness :
    readString (writeString [97, 98] ++ [7, 8]) = some ([97, 98], [7, 8]) ∧
    (writeString [97, 98]).length =
      8 + ([97, 98] : List Nat).length + padLen ([97, 98] : List Nat).length :=
  c2_string_roundtrip [97, 98] [7, 8] (by norm_num)

/-- Counterexample to C2 as stated: for the byte string of 2^32 zero bytes
the round trip fails, because `writeInt` keeps only the low 32 bits of the
length (its parameter is `unsigned int` in serialise.hh), so the decoder
reads back the empty string. -/
theorem c2_counterexample :
    readString (writeString (List.replicate (2 ^ 32) 0)) ≠
      some (List.replicate (2 ^ 32) 0, []) := by
  have htoLE : toLE 4 (2 ^ 32) = [0, 0, 0, 0] := by norm_num [toLE]
  have hpad : writePadding (2 ^ 32) = [] := by norm_num [writePadding, padLen]
  have hw : writeString (List.replicate (2 ^ 32) 0) =
      ([0, 0, 0, 0, 0, 0, 0, 0] : List Nat) ++ List.replicate (2 ^ 32) 0 := by
    rw [writeString, List.length_replicate, writeInt, htoLE, hpad]
    generalize List.replicate (2 ^ 32) (0 : Nat) = big
    have h40 : List.replicate 4 (0 : Nat) = [0, 0, 0, 0] := rfl
    rw [h40]
    simp [List.append_assoc]
  have hr : ∀ big : List Nat,
      readString (([0, 0, 0, 0, 0, 0, 0, 0] : List Nat) ++ big) =
        some ([], big) := by
    intro big
    rw [readString, readInt, readBytes_of_length 8 _ _ (by simp)]
    simp [fromLE, readBytes, readPadding, padLen]
  rw [hw, hr]
  intro hcontra
  have h1 : ([] : List Nat) = List.replicate (2 ^ 32) 0 :=
    congrArg Prod.fst (Option.some.inj hcontra)
  have h2 := congrArg List.length h1
  rw [List.length_nil, List.length_replicate] at h2
  norm_num at h2

/-- C6.  A `BufferedSink` of any capacity is observationally a direct write:
after accepting any sequence of chunks and flushing, the underlying
transport holds exactly the concatenation of all input bytes in order, and
the buffer is empty. -/
theorem c6_buffered_sink (cap : Nat) (chunks : List (List Nat)) :
    (bufSinkFlush (bufSinkRun cap chunks)).out = chunks.flatten ∧
    (bufSinkFlush (bufSinkRun cap chunks)).buf = [] := by
  constructor
  · have hstep : ∀ (st : BufSinkState) (data : List Nat),
        (bufSinkAccept cap st data).out ++ (bufSinkAccept cap st data).buf =
          st.out ++ st.buf ++ data := by
      intro st data
      unfold bufSinkAccept bufSinkFlush
      split
      · simp
      · split <;> simp
    have hrun : ∀ (cs : List (List Nat)) (st : BufSinkState),
        (cs.foldl (bufSinkAccept cap) st).out ++
          (cs.foldl (bufSinkAccept cap) st).buf =
          st.out ++ st.buf ++ cs.flatten := by
      intro cs
      induction cs with
      | nil => intro st; simp
      | cons c cs ih =>
        intro st
        rw [List.foldl_cons, ih (bufSinkAccept cap st c), hstep st c]
        simp
    show (bufSinkRun cap chunks).out ++ (bufSinkRun cap chunks).buf =
      chunks.flatten
    have := hrun chunks { buf := [], out := [] }
    simpa [bufSinkRun] using this
  · rfl

/-- C7.  A `BufferedSource` whose underlying read delivers one byte per call
still satisfies every fill request: a fill of `len` bytes succeeds exactly
when the underlying stream still holds `len` bytes, delivering the correct
bytes in order (a partial underlying read is not end-of-stream), and fails
only when the underlying read signals no more data while bytes are still
needed. -/
theorem c7_partial_reads (bytes : List Nat) (len : Nat) :
    (len ≤ bytes.length →
      bufSourceFill len [] (bytes.map (fun b => [b])) =
        some (bytes.take len, [], (bytes.drop len).map (fun b => [b]))) ∧
    (bytes.length < len →
      bufSourceFill len [] (bytes.map (fun b => [b])) = none) := by
  induction bytes generalizing len with
  | nil =>
    cases len with
    | zero => simp [bufSourceFill]
    | succ k => simp [bufSourceFill]
  | cons b bs ih =>
    cases len with
    | zero => simp [bufSourceFill]
    | succ k =>
      constructor
      · intro h
        have hk : k ≤ bs.length := by simpa using h
        have hrec := (ih k).1 hk
        simp [bufSourceFill, hrec]
      · intro h
        have hk : bs.length < k := by simpa using h
        have hrec := (ih k).2 hk
        simp [bufSourceFill, hrec]

/-- Witness for C7: a 3-byte stream chunked one byte per read serves a
2-byte fill with the right bytes, and a 5-byte fill fails. -/
theorem c7_partial_reads_witness :
    bufSourceFill 2 [] ([10, 20, 30].map (fun b => [b])) =
      some ([10, 20], [], [[30]]) ∧
    bufSourceFill 5 [] ([10, 20, 30].map (fun b => [b])) = none :=
  ⟨by simpa using (c7_partial_reads [10, 20, 30] 2).1 (by norm_num),
   (c7_partial_reads [10, 20, 30] 5).2 (by norm_num)⟩

/-- Counterexample to C8 as stated: on the 1-byte string `"a"`, a fill of 2
bytes does fail, but the error thrown by `StringSource::operator()` is the
base `Error` class, not the `SerialisationError` subclass that serialise.hh
declares and never throws. -/
theorem c8_counterexample :
    ((stringSourceFill [97] 0 2).2.2).isSome = true ∧
    (stringSourceFill [97] 0 2).2.2 ≠ some ErrKind.serialisationError := by
  decide

/-- C8 (amended).  When a `StringSource` is asked to fill `len` bytes and
`pos + len` exceeds the backing buffer's length, the operation still copies
all remaining bytes of the buffer (fewer than `len` of them) into the
destination and advances `pos` to `pos + len`, then fails with an
end-of-stream error of the base `Error` kind rather than returning a
truncated success; the partial output is not discarded. -/
theorem c8_string_source_overrun (s : List Nat) (pos len : Nat)
    (hpos : pos ≤ s.length) (hover : s.length < pos + len) :
    stringSourceFill s pos len =
      (s.drop pos, pos + len, some ErrKind.genericError) ∧
    (s.drop pos).length < len := by
  have hlen : (s.drop pos).length ≤ len := by
    simp [List.length_drop]; omega
  constructor
  · simp [stringSourceFill, hover, List.take_of_length_le hlen]
  · simp [List.length_drop]; omega

/-- Witness for C8 at `s = "a"`, `pos = 0`, `len = 2`. -/
theorem c8_string_source_overrun_witness :
    stringSourceFill [97] 0 2 =
      (List.drop 0 [97], 0 + 2, some ErrKind.genericError) ∧
    (List.drop 0 ([97] : List Nat)).length < 2 :=
  c8_string_source_overrun [97] 0 2 (by norm_num) (by norm_num)

/-- C9.  `~FdSink() { flush(); }` (serialise.hh): destruction of a sink
with a buffered byte does flush it to the transport, but when the transport
write fails the destructor propagates the flush error — it is not swallowed
on the destruction path. -/
theorem c9_destructor_flush :
    fdSinkDestroy none { buf := [42], out := [] } =
      Except.ok { buf := [], out := [42] } ∧
    fdSinkDestroy (some ErrKind.transportError) { buf := [42], out := [] } =
      Except.error ErrKind.transportError := by
  constructor <;> rfl

/-- C10.  Starting from a `StringSource` state with `pos ≤ s.size()`, a fill
of `len` bytes throws exactly when `pos + len > s.size()`: the new `pos` is
always `pos + len`, an exact-fit fill succeeds leaving `pos = s.size()`, and
a zero-length fill at the very end of the buffer succeeds — the
past-the-end check is strict. -/
theorem c10_string_source_boundary (s : List Nat) (pos len : Nat)
    (_hpos : pos ≤ s.length) :
    (((stringSourceFill s pos len).2.2).isSome ↔ s.length < pos + len) ∧
    (stringSourceFill s pos len).2.1 = pos + len ∧
    (pos + len = s.length →
      stringSourceFill s pos len = ((s.drop pos).take len, s.length, none)) ∧
    (stringSourceFill s s.length 0).2.2 = none := by
  refine ⟨?_, rfl, ?_, ?_⟩
  · simp [stringSourceFill]
  · intro h
    simp [stringSourceFill, h]
  · simp [stringSourceFill]

/-- Witness for C10 at `s = [1, 2]`, `pos = 1`, `len = 1` (an exact fit). -/
theorem c10_string_source_boundary_witness :
    (((stringSourceFill [1, 2] 1 1).2.2).isSome ↔
      ([1, 2] : List Nat).length < 1 + 1) ∧
    (stringSourceFill [1, 2] 1 1).2.1 = 1 + 1 ∧
    (1 + 1 = ([1, 2] : List Nat).length →
      stringSourceFill [1, 2] 1 1 =
        ((List.drop 1 [1, 2]).take 1, ([1, 2] : List Nat).length, none)) ∧
    (stringSourceFill [1, 2] ([1, 2] : List Nat).length 0).2.2 = none :=
  c10_string_source_boundary [1, 2] 1 1 (by norm_num)

/-! Lemmas about the ordered-insertion model of `std::set<string>`. -/

theorem setInsert_comm (a b : List Nat) :
    ∀ t : List (List Nat),
      setInsert a (setInsert b t) = setInsert b (setInsert a t) := by
  intro t
  rcases eq_or_ne a b with rfl | hne
  · rfl
  induction t with
  | nil =>
    rcases lt_or_gt_of_ne hne with h | h
    · simp [setInsert, h, lt_asymm h]
    · simp [setInsert, h, lt_asymm h]
  | cons y ys ih =>
    rcases lt_trichotomy a y with hay | rfl | hay
    · rcases lt_trichotomy b y with hby | rfl | hby
      · -- a < y, b < y: both go in front, ordered by a ? b
        rcases lt_or_gt_of_ne hne with h | h
        · simp [setInsert, hay, hby, h, lt_asymm h]
        · simp [setInsert, hay, hby, h, lt_asymm h]
      · -- a < y = b: inserting b is a no-op
        simp [setInsert, hay, lt_asymm hay, lt_irrefl b]
      · -- a < y < b
        have hab : a < b := lt_trans hay hby
        simp [setInsert, hay, hby, hab, lt_asymm hay, lt_asymm hby,
          lt_asymm hab]
    · rcases lt_trichotomy b a with hby | rfl | hby
      · -- b < y = a: inserting a is a no-op
        simp [setInsert, hby, lt_asymm hby, lt_irrefl a]
      · -- a = b = y: excluded
        exact absurd rfl hne
      · -- a = y < b: inserting a is a no-op on both sides
        simp [setInsert, hby, lt_asymm hby, lt_irrefl a]
    · rcases lt_trichotomy b y with hby | rfl | hby
      · -- b < y < a
        have hba : b < a := lt_trans hby hay
        simp [setInsert, hay, hby, hba, lt_asymm hay, lt_asymm hby,
          lt_asymm hba]
      · -- b = y < a: inserting b is a no-op on both sides
        simp [setInsert, hay, lt_asymm hay, lt_irrefl b]
      · -- y < a, y < b: both recurse past y
        simp [setInsert, lt_asymm hay, lt_asymm hby, hay, hby, ih]

theorem setInsert_append (s : List Nat) :
    ∀ acc : List (List Nat), (∀ x ∈ acc, x < s) →
      setInsert s acc = acc ++ [s] := by
  intro acc
  induction acc with
  | nil => intro _; rfl
  | cons y ys ih =>
    intro h
    have hy : y < s := h y (List.mem_cons_self y ys)
    simp [setInsert, lt_asymm hy, hy,
      ih (fun x hx => h x (List.mem_cons_of_mem y hx))]

theorem foldl_setInsert_sorted :
    ∀ (S acc : List (List Nat)),
      List.Pairwise (fun a b : List Nat => a < b) (acc ++ S) →
      S.foldl (fun a s => setInsert s a) acc = acc ++ S := by
  intro S
  induction S with
  | nil => intro acc _; simp
  | cons s S ih =>
    intro acc h
    rw [List.foldl_cons]
    have hlt : ∀ x ∈ acc, x < s := by
      rw [List.pairwise_append] at h
      intro x hx
      exact h.2.2 x hx s (List.mem_cons_self s S)
    rw [setInsert_append s acc hlt]
    have h2 : List.Pairwise (fun a b : List Nat => a < b) ((acc ++ [s]) ++ S) := by
      simpa [List.append_assoc] using h
    rw [ih (acc ++ [s]) h2]
    simp

theorem readStrings_append :
    ∀ (l acc : List (List Nat)) (rest : List Nat),
      (∀ s ∈ l, s.length < 2 ^ 32) →
      readStrings l.length acc (writeStrings l ++ rest) =
        some (l.foldl (fun a s => setInsert s a) acc, rest) := by
  intro l
  induction l with
  | nil => intro acc rest _; simp [writeStrings, readStrings]
  | cons s l ih =>
    intro acc rest h
    have hs : s.length < 2 ^ 32 := h s (List.mem_cons_self s l)
    rw [List.length_cons, writeStrings, List.append_assoc, readStrings,
      readString_append s _ hs]
    exact ih (setInsert s acc) rest (fun x hx => h x (List.mem_cons_of_mem s hx))

/-- Counterexample to C5 as stated: for the set containing the single
string of 2^32 zero bytes, decoding the encoding does not yield the set
back — `writeString` passes the element's length through `writeInt`, whose
parameter is `unsigned int` in serialise.hh, so the length is truncated to
0 and the decoder reconstructs the set containing only the empty string. -/
theorem c5_counterexample :
    readStringSet (writeStringSet [List.replicate (2 ^ 32) 0]) ≠
      some ([List.replicate (2 ^ 32) 0], []) := by
  have htoLE : toLE 4 (2 ^ 32) = [0, 0, 0, 0] := by norm_num [toLE]
  have hpad : writePadding (2 ^ 32) = [] := by norm_num [writePadding, padLen]
  have hw : writeString (List.replicate (2 ^ 32) 0) =
      ([0, 0, 0, 0, 0, 0, 0, 0] : List Nat) ++ List.replicate (2 ^ 32) 0 := by
    rw [writeString, List.length_replicate, writeInt, htoLE, hpad]
    generalize List.replicate (2 ^ 32) (0 : Nat) = big
    have h40 : List.replicate 4 (0 : Nat) = [0, 0, 0, 0] := rfl
    rw [h40]
    simp [List.append_assoc]
  have hr : ∀ b : List Nat,
      readString (([0, 0, 0, 0, 0, 0, 0, 0] : List Nat) ++ b) =
        some ([], b) := by
    intro b
    rw [readString, readInt, readBytes_of_length 8 _ _ (by simp)]
    simp [fromLE, readBytes, readPadding, padLen]
  have hsets : writeStringSet [List.replicate (2 ^ 32) 0] =
      writeInt 1 ++ (writeString (List.replicate (2 ^ 32) 0) ++ []) := by
    generalize List.replicate (2 ^ 32) (0 : Nat) = big
    rw [writeStringSet, writeStrings, writeStrings]
    simp
  have hdecode : readStringSet (writeStringSet [List.replicate (2 ^ 32) 0]) =
      some ([[]], List.replicate (2 ^ 32) 0) := by
    rw [hsets, readStringSet, readInt_append 1 _ (by norm_num)]
    show readStrings (0 + 1) []
      (writeString (List.replicate (2 ^ 32) 0) ++ []) = _
    rw [List.append_nil, hw, readStrings, hr]
    rfl
  rw [hdecode]
  intro h
  have h1 := congrArg Prod.fst (Option.some.inj h)
  have h2 : ([] : List Nat) = List.replicate (2 ^ 32) 0 := by
    injection h1
  have h3 := congrArg List.length h2
  rw [List.length_nil, List.length_replicate] at h3
  norm_num at h3

/-- C5 (amended).  For every finite set of strings `S` (a sorted
duplicate-free list, the `std::set` representation) whose element lengths
and cardinality are below 2^32 — the bounds the 32-bit wire counters
impose — decoding the encoding yields a set equal to `S` no matter in which
order `l` the elements were encoded (duplicate handling and ordering are
absorbed by `setInsert`), and `writeStringSet` is deterministic — in this
functional model, encoding the same constructed set twice trivially yields
the same bytes. -/
theorem c5_string_set_roundtrip (S l : List (List Nat))
    (hS : List.Pairwise (fun a b : List Nat => a < b) S) (hperm : l.Perm S)
    (hlen : ∀ s ∈ l, s.length < 2 ^ 32) (hcount : l.length < 2 ^ 32) :
    readStringSet (writeInt l.length ++ writeStrings l) = some (S, []) ∧
    readStringSet (writeStringSet S) = some (S, []) ∧
    writeStringSet S = writeStringSet S := by
  have main : ∀ m : List (List Nat), m.Perm S →
      (∀ s ∈ m, s.length < 2 ^ 32) → m.length < 2 ^ 32 →
      readStringSet (writeInt m.length ++ writeStrings m) = some (S, []) := by
    intro m hm hml hmc
    rw [readStringSet, readInt_append m.length _ hmc]
    have h1 : writeStrings m = writeStrings m ++ [] := by simp
    have h2 : m.foldl (fun a s => setInsert s a) [] =
        S.foldl (fun a s => setInsert s a) [] :=
      hm.foldl_eq' (fun x _ y _ z => setInsert_comm y x z) []
    have h3 : S.foldl (fun a s => setInsert s a) [] = S := by
      have := foldl_setInsert_sorted S [] (by simpa using hS)
      simpa using this
    calc readStrings m.length [] (writeStrings m)
        = readStrings m.length [] (writeStrings m ++ []) := by rw [← h1]
      _ = some (m.foldl (fun a s => setInsert s a) [], []) :=
          readStrings_append m [] [] hml
      _ = some (S, []) := by rw [h2, h3]
  refine ⟨main l hperm hlen hcount, ?_, rfl⟩
  have hSl : ∀ s ∈ S, s.length < 2 ^ 32 := fun s hs =>
    hlen s (hperm.mem_iff.mpr hs)
  have hSc : S.length < 2 ^ 32 := by
    rw [← hperm.length_eq]; exact hcount
  exact main S (List.Perm.refl S) hSl hSc

/-- Witness for C5: the set `{"\x01", "\x02"}` encoded in reversed order
still decodes to the sorted set. -/
theorem c5_string_set_roundtrip_witness :
    readStringSet (writeInt ([[2], [1]] : List (List Nat)).length ++
      writeStrings [[2], [1]]) = some ([[1], [2]], []) ∧
    readStringSet (writeStringSet [[1], [2]]) = some ([[1], [2]], []) ∧
    writeStringSet ([[1], [2]] : List (List Nat)) = writeStringSet [[1], [2]] :=
  c5_string_set_roundtrip [[1], [2]] [[2], [1]] (by decide)
    (List.Perm.swap [1] [2] []) (by decide) (by decide)

end Serialise
